import Mathlib

set_option maxHeartbeats 1000000
set_option linter.dupNamespace false

/-!
Verification development for the zbus repository core: the parsed D-Bus
signature engine (`zvariant/src/parsed/signature.rs`) and the connection
core (`src/connection.rs`).

Conventions of the shallow embedding:
* Rust strings / byte slices become `List Char` (all bytes the code ever
  matches on are ASCII, so byte length = char count).
* The `gvariant` cargo feature is disabled (as in the default build), so
  the `Maybe` variant does not exist; `cfg(unix)` holds, so `Fd` does.
* The `ChildSignature` / `FieldsSignatures` wrappers are pure ownership
  devices (`Box`-or-`'static` indirection); they deref to `Signature` in
  every operation modelled here, so they are erased to `Signature` /
  `List Signature`.
* Fallible operations return `Option`; a Rust panic (out-of-range slice)
  is `none`.
-/

/-- Parsed D-Bus type signature, mirroring `enum Signature` in
`zvariant/src/parsed/signature.rs` (gvariant feature off, unix on). -/
inductive Signature where
  | Unit
  | U8
  | Bool
  | I16
  | U16
  | I32
  | U32
  | I64
  | U64
  | F64
  | Str
  | Signature
  | ObjectPath
  | Variant
  | Fd
  | Array (child : Signature)
  | Dict (key : Signature) (value : Signature)
  | Structure (fields : List Signature)

mutual

/-- Embeds `Signature::write_as_string(w, outer_parens)`: the canonical
string form, with the outermost `Structure`'s parentheses controlled by
the flag.  Nested children are written via `Display`, i.e. with parens. -/
def writeAsString : Signature → Bool → List Char
  | .Unit, _ => []
  | .U8, _ => ['y']
  | .Bool, _ => ['b']
  | .I16, _ => ['n']
  | .U16, _ => ['q']
  | .I32, _ => ['i']
  | .U32, _ => ['u']
  | .I64, _ => ['x']
  | .U64, _ => ['t']
  | .F64, _ => ['d']
  | .Str, _ => ['s']
  | .Signature, _ => ['g']
  | .ObjectPath, _ => ['o']
  | .Variant, _ => ['v']
  | .Fd, _ => ['h']
  | .Array child, _ => 'a' :: writeAsString child true
  | .Dict key value, _ =>
      'a' :: '{' :: (writeAsString key true ++ writeAsString value true ++ ['}'])
  | .Structure fields, outerParens =>
      (if outerParens then ['('] else []) ++ writeFields fields ++
        (if outerParens then [')'] else [])

/-- Embeds the `for field in fields.iter() { write!(w, "{}", field)? }`
loop of `write_as_string`. -/
def writeFields : List Signature → List Char
  | [] => []
  | f :: fs => writeAsString f true ++ writeFields fs

end

/-- Embeds `ToString::to_string` (via `Display`, `outer_parens = true`). -/
def toStr (s : Signature) : List Char := writeAsString s true

/-- Embeds `Signature::to_string_no_parens` (`outer_parens = false`). -/
def toStrNoParens (s : Signature) : List Char := writeAsString s false

mutual

/-- Embeds `Signature::string_len`. -/
def stringLen : Signature → Nat
  | .Unit => 0
  | .U8 => 1
  | .Bool => 1
  | .I16 => 1
  | .U16 => 1
  | .I32 => 1
  | .U32 => 1
  | .I64 => 1
  | .U64 => 1
  | .F64 => 1
  | .Str => 1
  | .Signature => 1
  | .ObjectPath => 1
  | .Variant => 1
  | .Fd => 1
  | .Array child => 1 + stringLen child
  | .Dict key value => 3 + stringLen key + stringLen value
  | .Structure fields => 2 + fieldsLenSum fields

/-- Embeds the `let mut len = 2; for field { len += field.string_len() }`
loop of `string_len` (the summation part). -/
def fieldsLenSum : List Signature → Nat
  | [] => 0
  | f :: fs => stringLen f + fieldsLenSum fs

end

/-- Serialization format selector; with the gvariant feature disabled only
the `DBus` variant of `crate::serialized::Format` is inhabited. -/
inductive Format where
  | DBus

/-- Embeds `Signature::alignment_dbus`. -/
def alignmentDbus : Signature → Nat
  | .U8 | .Variant | .Signature => 1
  | .I16 | .U16 => 2
  | .I32 | .U32 | .Bool | .Str | .ObjectPath | .Array _ | .Dict _ _ => 4
  | .I64 | .U64 | .F64 | .Unit | .Structure _ => 8
  | .Fd => 4

/-- Embeds `Signature::alignment(format)` (dispatch on the format). -/
def alignment (s : Signature) (format : Format) : Nat :=
  match format with
  | .DBus => alignmentDbus s

mutual

/-- Embeds `parse_signature(bytes, check_only)`: the nom alternation
`alt((simple_type, dict, array, structure))`.  The `fuel` argument bounds
the recursion depth; each successful step consumes input, so any fuel of
at least `4 * length + 4` behaves like the Rust parser.  Backtracking
notes: on input starting `a{`, a failed dict parse makes the `array`
branch try to parse a signature starting at `{`, which always fails, so a
dict failure is final; no other alternative overlaps. -/
def parseSig : Nat → Bool → List Char → Option (Signature × List Char)
  | 0, _, _ => none
  | fuel + 1, checkOnly, bytes =>
    match bytes with
    | [] => none
    | c :: r =>
      if c = 'y' then some (.U8, r)
      else if c = 'b' then some (.Bool, r)
      else if c = 'n' then some (.I16, r)
      else if c = 'q' then some (.U16, r)
      else if c = 'i' then some (.I32, r)
      else if c = 'u' then some (.U32, r)
      else if c = 'x' then some (.I64, r)
      else if c = 't' then some (.U64, r)
      else if c = 'd' then some (.F64, r)
      else if c = 's' then some (.Str, r)
      else if c = 'g' then some (.Signature, r)
      else if c = 'o' then some (.ObjectPath, r)
      else if c = 'v' then some (.Variant, r)
      else if c = 'h' then some (.Fd, r)
      else if c = 'a' then
        match r with
        | [] => none
        | c1 :: r1 =>
          if c1 = '{' then
            match parseSig fuel checkOnly r1 with
            | some (key, r2) =>
              match parseSig fuel checkOnly r2 with
              | some (value, r3) =>
                match r3 with
                | [] => none
                | c3 :: r4 =>
                  if c3 = '}' then
                    some (if checkOnly then .Dict .Unit .Unit else .Dict key value, r4)
                  else none
              | none => none
            | none => none
          else
            match parseSig fuel checkOnly r with
            | some (child, r2) =>
              some (if checkOnly then .Array .Unit else .Array child, r2)
            | none => none
      else if c = '(' then
        match manyToSig fuel checkOnly false r with
        | some (sig, r1) =>
          match r1 with
          | [] => none
          | c1 :: r2 => if c1 = ')' then some (sig, r2) else none
        | none => none
      else none

/-- Embeds the inner `many` function of `parse`: `many1` (or
`many1_count` when `check_only`) of `parse_signature`, mapped to a single
`Signature` according to `top_level`. -/
def manyToSig : Nat → Bool → Bool → List Char → Option (Signature × List Char)
  | 0, _, _, _ => none
  | fuel + 1, checkOnly, topLevel, bytes =>
    match manySigs fuel checkOnly bytes with
    | none => none
    | some (sigs, r) =>
      if checkOnly then some (.Unit, r)
      else if topLevel then
        match sigs with
        | [] => some (.Unit, r)
        | [s] => some (s, r)
        | _ => some (.Structure sigs, r)
      else some (.Structure sigs, r)

/-- Embeds nom's greedy `many1(parse_signature)`: one or more signatures,
stopping (not failing) at the first element that does not parse. -/
def manySigs : Nat → Bool → List Char → Option (List Signature × List Char)
  | 0, _, _ => none
  | fuel + 1, checkOnly, bytes =>
    match parseSig fuel checkOnly bytes with
    | none => none
    | some (s, r) =>
      match manySigs fuel checkOnly r with
      | none => some ([s], r)
      | some (ss, r1) => some (s :: ss, r1)

end

/-- Embeds the top-level `parse(bytes, check_only)`:
`all_consuming(alt((empty, many(top_level = true))))`, with parse failure
(`InvalidSignature`) as `none`. -/
def parse (bytes : List Char) (checkOnly : Bool) : Option Signature :=
  match bytes with
  | [] => some .Unit
  | _ =>
    match manyToSig (4 * bytes.length + 4) checkOnly true bytes with
    | some (sig, []) => some sig
    | _ => none

/-- Embeds `Signature::from_bytes` / `FromStr::from_str` (`check_only = false`). -/
def fromBytes (bytes : List Char) : Option Signature := parse bytes false

/-- Embeds the free function `validate(bytes)`: `parse(bytes, true).map(|_| ())`. -/
def validate (bytes : List Char) : Option PUnit := (parse bytes true).map fun _ => .unit

/-- Number of top-level sigs of the input, read off the same `many1` run
that `parse` performs (0 when the input is empty or invalid).  Used to
state the multi-field versus single-sig distinction of the spec. -/
def topFieldCount (bytes : List Char) : Nat :=
  match manySigs (4 * bytes.length + 3) false bytes with
  | some (sigs, []) => sigs.length
  | _ => 0


mutual

/-- Embeds `impl PartialEq for Signature`: pointwise structural equality;
`Structure` compares field iterators (`a.iter().eq(b.iter())`). -/
def sigEq : Signature → Signature → Bool
  | .Unit, .Unit => true
  | .U8, .U8 => true
  | .Bool, .Bool => true
  | .I16, .I16 => true
  | .U16, .U16 => true
  | .I32, .I32 => true
  | .U32, .U32 => true
  | .I64, .I64 => true
  | .U64, .U64 => true
  | .F64, .F64 => true
  | .Str, .Str => true
  | .Signature, .Signature => true
  | .ObjectPath, .ObjectPath => true
  | .Variant, .Variant => true
  | .Fd, .Fd => true
  | .Array a, .Array b => sigEq a b
  | .Dict ka va, .Dict kb vb => sigEq ka kb && sigEq va vb
  | .Structure a, .Structure b => fieldsEq a b
  | _, _ => false

/-- Embeds the `Iterator::eq` used by the `Structure` arm of `PartialEq`:
pointwise, and both iterators must end together. -/
def fieldsEq : List Signature → List Signature → Bool
  | [], [] => true
  | a :: as_, b :: bs => sigEq a b && fieldsEq as_ bs
  | _, _ => false

end

mutual

/-- Embeds `impl Ord for Signature`: equal discriminants compare their
children; the final `(_, _)` arm returns `Equal` for **distinct**
discriminants (the quirk flagged in the source's design notes). -/
def sigCmp : Signature → Signature → Ordering
  | .Unit, .Unit => .eq
  | .U8, .U8 => .eq
  | .Bool, .Bool => .eq
  | .I16, .I16 => .eq
  | .U16, .U16 => .eq
  | .I32, .I32 => .eq
  | .U32, .U32 => .eq
  | .I64, .I64 => .eq
  | .U64, .U64 => .eq
  | .F64, .F64 => .eq
  | .Str, .Str => .eq
  | .Signature, .Signature => .eq
  | .ObjectPath, .ObjectPath => .eq
  | .Variant, .Variant => .eq
  | .Fd, .Fd => .eq
  | .Array a, .Array b => sigCmp a b
  | .Dict ka va, .Dict kb vb =>
    match sigCmp ka kb with
    | .eq => sigCmp va vb
    | o => o
  | .Structure a, .Structure b => fieldsCmp a b
  | _, _ => .eq

/-- Embeds the `Iterator::cmp` used by the `Structure` arm of `Ord`:
lexicographic, with the shorter iterator comparing less. -/
def fieldsCmp : List Signature → List Signature → Ordering
  | [], [] => .eq
  | [], _ :: _ => .lt
  | _ :: _, [] => .gt
  | a :: as_, b :: bs =>
    match sigCmp a b with
    | .eq => fieldsCmp as_ bs
    | o => o

end

mutual

/-- Embeds `impl PartialEq<&str> for Signature`: wire-string comparison
of a parsed signature against a string.  An out-of-range slice in the
`Structure` arm (a Rust panic) is `none`; every non-panicking path is
`some`. -/
def eqStr : Signature → List Char → Option Bool
  | .Unit, other => some other.isEmpty
  | .Bool, other => some (other == ['b'])
  | .U8, other => some (other == ['y'])
  | .I16, other => some (other == ['n'])
  | .U16, other => some (other == ['q'])
  | .I32, other => some (other == ['i'])
  | .U32, other => some (other == ['u'])
  | .I64, other => some (other == ['x'])
  | .U64, other => some (other == ['t'])
  | .F64, other => some (other == ['d'])
  | .Str, other => some (other == ['s'])
  | .Signature, other => some (other == ['g'])
  | .ObjectPath, other => some (other == ['o'])
  | .Variant, other => some (other == ['v'])
  | .Fd, other => some (other == ['h'])
  | .Array child, other =>
    if other.length < 2 || !(other.take 1 == ['a']) then some false
    else eqStr child (other.drop 1)
  | .Dict key value, other =>
    if other.length < 4 || !(other.take 2 == ['a', '{']) ||
        !(other.getLast? == some '}') then some false
    else
      let inner := (other.drop 2).dropLast
      match eqStr key (inner.take 1) with
      | some true => eqStr value (inner.drop 1)
      | some false => some false
      | none => none
  | .Structure fields, other =>
    let sl := stringLen (.Structure fields)
    if sl < other.length then some false
    else if sl == other.length then
      if other.length < 3 then some false
      else structFieldsEqStr fields ((other.drop 1).dropLast)
    else
      if other.isEmpty then some false
      else structFieldsEqStr fields other

/-- Embeds the field loop of the `Structure` arm of `PartialEq<&str>`:
each field is compared against the slice `[start, start + string_len)` of
the remaining string; a slice past the end is a Rust panic (`none`), and
leftover characters after the last field are ignored (as in the source). -/
def structFieldsEqStr : List Signature → List Char → Option Bool
  | [], _ => some true
  | f :: fs, str =>
    let len := stringLen f
    if str.length < len then none
    else
      match eqStr f (str.take len) with
      | some true => structFieldsEqStr fs (str.drop len)
      | some false => some false
      | none => none

end


mutual

/-- Predicate carving out the `Signature` values on which the wire-string
comparison agrees with stringification: no `Unit` occurs (the data-model
invariant that `Unit` is top-level only), every `Dict` key is a one-byte
basic type (the D-Bus basic-key rule), and every `Structure` has at least
one field. -/
def wfSig : Signature → Bool
  | .Unit => false
  | .U8 | .Bool | .I16 | .U16 | .I32 | .U32 | .I64 | .U64 | .F64
  | .Str | .Signature | .ObjectPath | .Variant | .Fd => true
  | .Array child => wfSig child
  | .Dict key value => wfSig key && stringLen key == 1 && wfSig value
  | .Structure fields => !fields.isEmpty && wfFields fields

/-- All-fields version of `wfSig`. -/
def wfFields : List Signature → Bool
  | [] => true
  | f :: fs => wfSig f && wfFields fs

end

/- ------------------------------------------------------------------ -/
/- Connection core (`src/connection.rs`).                             -/
/- ------------------------------------------------------------------ -/

/-- Modelled from the spec: the `message` module is not under `src/`;
§3 lists exactly these frame types. -/
inductive MessageType where
  | MethodCall
  | MethodReturn
  | Error
  | Signal
  deriving DecidableEq

/-- Modelled from the spec: the `message_field` module is not under
`src/`; §3 lists these known header-field codes. -/
inductive MessageFieldCode where
  | Path
  | Interface
  | Member
  | ErrorName
  | ReplySerial
  | Destination
  | Sender
  | SignatureField
  deriving DecidableEq

/-- Modelled from the spec: §3, "Each field carries a typed variant
value"; only the shapes the connection core inspects (`u32` and string)
are distinguished. -/
inductive Value where
  | u32 (n : Nat)
  | str (s : List Char)
  deriving DecidableEq

/-- Embeds `v.get::<u32>()`: succeeds exactly on a `u32` value. -/
def getU32 : Value → Option Nat
  | .u32 n => some n
  | _ => none

/-- Embeds `v.get::<&str>()`: succeeds exactly on a string value. -/
def getStr : Value → Option (List Char)
  | .str s => some s
  | _ => none

/-- Modelled from the spec: the `message_field` module is not under
`src/`; a header field is a code plus its typed value, and `f.value()`
is modelled as total, the field already holding its decoded value. -/
structure MessageField where
  code : MessageFieldCode
  value : Value
  deriving DecidableEq

/-- Modelled from the spec: the `message` module is not under `src/`.
An inbound D-Bus frame as the read loop of `call_method` sees it after
decoding: `bodySig` is the `Signature` header field's string
(`body_signature()`), and `bodyStr` the string the body decodes to when
that signature is `"s"`. -/
structure Message where
  msgType : MessageType
  fields : List MessageField
  bodySig : Option (List Char)
  bodyStr : List Char
  deriving DecidableEq

/-- Embeds `enum ConnectionError` of `src/connection.rs` (payloads of
the wrapped lower-level errors are irrelevant here and erased). -/
inductive ConnectionError where
  | IOErr
  | Message
  | MessageField
  | Variant
  | Handshake
  | InvalidReply
  | MethodError (name : List Char) (detail : Option (List Char))
  deriving DecidableEq

/-- Embeds `impl From<message::Message> for ConnectionError`: non-Error
frames and a missing `ErrorName` field give `InvalidReply`; a non-string
`ErrorName` value gives a `Variant` error; otherwise `MethodError(name,
detail)` with `detail` read from the body exactly when the body
signature is `"s"`. -/
def connectionErrorOfMessage (m : Message) : ConnectionError :=
  if m.msgType ≠ .Error then .InvalidReply
  else
    match m.fields.find? (fun f => decide (f.code = .ErrorName)) with
    | none => .InvalidReply
    | some f =>
      match getStr f.value with
      | none => .Variant
      | some name =>
        if ((m.bodySig.map fun s => decide (s = ['s'])).getD false) then
          .MethodError name (some m.bodyStr)
        else .MethodError name none

/-- Embeds the reply-serial test of the read loop:
`all_fields.iter().find(|f| f.code() == ReplySerial && f.value() ... ==
serial).is_some()`. -/
def hasMatchingReplySerial (serial : Nat) (m : Message) : Bool :=
  (m.fields.find? fun f =>
    decide (f.code = .ReplySerial) &&
      ((getU32 f.value).map fun u => decide (u = serial)).getD false).isSome

/-- Composite test: the frame is a `MethodReturn` or `Error` **and** its
`ReplySerial` equals the call's serial (the two nested `if`s of the read
loop). -/
def matchesReply (serial : Nat) (m : Message) : Bool :=
  (decide (m.msgType = .MethodReturn) || decide (m.msgType = .Error)) &&
    hasMatchingReplySerial serial m

/-- Embeds the read loop of `Connection::call_method` on the sequence of
decoded inbound frames: non-matching frames are skipped; the first
matching `MethodReturn` is returned, the first matching `Error` is
converted through `From<Message>`; an exhausted stream (the Rust loop
would block) is `none`. -/
def callMethodLoop (serial : Nat) : List Message → Option (Except ConnectionError Message)
  | [] => none
  | m :: rest =>
    if m.msgType = .MethodReturn ∨ m.msgType = .Error then
      if hasMatchingReplySerial serial m then
        match m.msgType with
        | .Error => some (.error (connectionErrorOfMessage m))
        | .MethodReturn => some (.ok m)
        | _ => callMethodLoop serial rest
      else callMethodLoop serial rest
    else callMethodLoop serial rest

/-- Serial value a fresh connection starts with (`serial: 0` in
`new_session`). -/
def initialSerial : Nat := 0

/-- Embeds `Connection::next_serial`: `self.serial += 1; self.serial` on
a `u32`.  The increment is modelled with Rust's debug overflow
semantics: exceeding `u32::MAX` is a panic (`none`).  Returns the fresh
serial together with the new counter state. -/
def nextSerial (s : Nat) : Option (Nat × Nat) :=
  if s + 1 < 2 ^ 32 then some (s + 1, s + 1) else none

/-- Serials carried by the first `n` outgoing messages when the counter
starts at `s`: each `call_method` invocation draws `next_serial` once,
before the write. -/
def sendSerials : Nat → Nat → Option (List Nat)
  | 0, _ => some []
  | n + 1, s =>
    match nextSerial s with
    | none => none
    | some (serial, s1) => (sendSerials n s1).map fun rest => serial :: rest

/- ------------------------------------------------------------------ -/
/- SASL handshake (`Connection::new_session`).                        -/
/- ------------------------------------------------------------------ -/

/-- Embeds `uid.to_string()`: the decimal string of the UID (most
significant digit first, `0` giving `"0"`).  `Nat.toDigits 10` is
decimal digit characters, exactly as Rust's `Display` for integers. -/
def decString (n : Nat) : List Char := Nat.toDigits 10 n

/-- Embeds `format!("{:x}", n)`: lowercase hexadecimal with **no**
zero-padding. -/
def hexFmt (n : Nat) : List Char := Nat.toDigits 16 n

/-- Embeds the hex token of the AUTH line:
`uid.to_string().chars().map(|c| format!("{:x}", c as u32)).collect()`. -/
def uidHex (uid : Nat) : List Char :=
  ((decString uid).map fun c => hexFmt c.toNat).flatten

/-- Embeds the full line written by the handshake:
`format!("\0AUTH EXTERNAL {}\r\n", uid_str)`. -/
def authLine (uid : Nat) : List Char :=
  Char.ofNat 0 ::
    (['A', 'U', 'T', 'H', ' ', 'E', 'X', 'T', 'E', 'R', 'N', 'A', 'L', ' '] ++
      uidHex uid ++ ['\r', '\n'])

/-- Spec-side form of the token (§4.4 and C7's wording): the
**two-digit** hex of a code point. -/
def specTwoDigitHex (m : Nat) : List Char :=
  [Nat.digitChar (m / 16), Nat.digitChar (m % 16)]


/- ------------------------------------------------------------------ -/
/- Helper lemmas: parsing inverts stringification.                    -/
/- ------------------------------------------------------------------ -/

/-- Round trip of the allocating parser, all three layers at once: a
parsed signature stringifies (with parens) back to exactly the consumed
input prefix. -/
theorem roundTripAux : ∀ fuel : Nat,
    (∀ b s r, parseSig fuel false b = some (s, r) → writeAsString s true ++ r = b) ∧
    (∀ b s r, manyToSig fuel false false b = some (s, r) →
      ∃ sigs, s = Signature.Structure sigs ∧ writeFields sigs ++ r = b) ∧
    (∀ b l r, manySigs fuel false b = some (l, r) → writeFields l ++ r = b) := by
  intro fuel
  induction fuel with
  | zero =>
    refine ⟨?_, ?_, ?_⟩
    · intro b s r h; simp [parseSig] at h
    · intro b s r h; simp [manyToSig] at h
    · intro b l r h; simp [manySigs] at h
  | succ fuel ih =>
    obtain ⟨ih1, ih2, ih3⟩ := ih
    refine ⟨?_, ?_, ?_⟩
    · intro b s r h
      cases b with
      | nil => simp [parseSig] at h
      | cons c r0 =>
        simp only [parseSig] at h
        by_cases hy : c = 'y'
        · rw [if_pos hy] at h
          injection h with h1; injection h1 with hs hr; subst hs hr hy
          simp [writeAsString]
        rw [if_neg hy] at h
        by_cases hbo : c = 'b'
        · rw [if_pos hbo] at h
          injection h with h1; injection h1 with hs hr; subst hs hr hbo
          simp [writeAsString]
        rw [if_neg hbo] at h
        by_cases hn : c = 'n'
        · rw [if_pos hn] at h
          injection h with h1; injection h1 with hs hr; subst hs hr hn
          simp [writeAsString]
        rw [if_neg hn] at h
        by_cases hq : c = 'q'
        · rw [if_pos hq] at h
          injection h with h1; injection h1 with hs hr; subst hs hr hq
          simp [writeAsString]
        rw [if_neg hq] at h
        by_cases hi : c = 'i'
        · rw [if_pos hi] at h
          injection h with h1; injection h1 with hs hr; subst hs hr hi
          simp [writeAsString]
        rw [if_neg hi] at h
        by_cases hu : c = 'u'
        · rw [if_pos hu] at h
          injection h with h1; injection h1 with hs hr; subst hs hr hu
          simp [writeAsString]
        rw [if_neg hu] at h
        by_cases hx : c = 'x'
        · rw [if_pos hx] at h
          injection h with h1; injection h1 with hs hr; subst hs hr hx
          simp [writeAsString]
        rw [if_neg hx] at h
        by_cases ht : c = 't'
        · rw [if_pos ht] at h
          injection h with h1; injection h1 with hs hr; subst hs hr ht
          simp [writeAsString]
        rw [if_neg ht] at h
        by_cases hd : c = 'd'
        · rw [if_pos hd] at h
          injection h with h1; injection h1 with hs hr; subst hs hr hd
          simp [writeAsString]
        rw [if_neg hd] at h
        by_cases hst : c = 's'
        · rw [if_pos hst] at h
          injection h with h1; injection h1 with hs hr; subst hs hr hst
          simp [writeAsString]
        rw [if_neg hst] at h
        by_cases hg : c = 'g'
        · rw [if_pos hg] at h
          injection h with h1; injection h1 with hs hr; subst hs hr hg
          simp [writeAsString]
        rw [if_neg hg] at h
        by_cases ho : c = 'o'
        · rw [if_pos ho] at h
          injection h with h1; injection h1 with hs hr; subst hs hr ho
          simp [writeAsString]
        rw [if_neg ho] at h
        by_cases hv : c = 'v'
        · rw [if_pos hv] at h
          injection h with h1; injection h1 with hs hr; subst hs hr hv
          simp [writeAsString]
        rw [if_neg hv] at h
        by_cases hh : c = 'h'
        · rw [if_pos hh] at h
          injection h with h1; injection h1 with hs hr; subst hs hr hh
          simp [writeAsString]
        rw [if_neg hh] at h
        by_cases ha : c = 'a'
        · -- dict / array branch: c = 'a'
          rw [if_pos ha] at h
          split at h
          · simp at h
          · rename_i c1 r1
            by_cases hb1 : c1 = '{'
            · rw [if_pos hb1] at h
              split at h
              · rename_i key r2 hkey
                split at h
                · rename_i value r3 hvalue
                  split at h
                  · simp at h
                  · rename_i c3 r4
                    by_cases hc3 : c3 = '}'
                    · rw [if_pos hc3, if_neg Bool.false_ne_true] at h
                      injection h with h1; injection h1 with hs hr; subst hs hr
                      have e1 := ih1 _ _ _ hkey
                      have e2 := ih1 _ _ _ hvalue
                      subst ha hb1 hc3
                      simp only [writeAsString]
                      rw [← e1, ← e2]
                      simp
                    · rw [if_neg hc3] at h
                      simp at h
                · simp at h
              · simp at h
            · rw [if_neg hb1] at h
              split at h
              · rename_i child r2 hchild
                rw [if_neg Bool.false_ne_true] at h
                injection h with h1; injection h1 with hs hr; subst hs hr
                have e1 := ih1 _ _ _ hchild
                subst ha
                simp only [writeAsString]
                rw [← e1]
                simp
              · simp at h
        rw [if_neg ha] at h
        by_cases hp : c = '('
        · -- structure branch: c = '('
          rw [if_pos hp] at h
          split at h
          · rename_i sig r1 hmany
            split at h
            · simp at h
            · rename_i c1 r2
              by_cases hc1 : c1 = ')'
              · rw [if_pos hc1] at h
                injection h with h1; injection h1 with hs hr; subst hs hr
                obtain ⟨sigs, hsig, e1⟩ := ih2 _ _ _ hmany
                subst hsig hp hc1
                simp only [writeAsString, if_pos]
                rw [← e1]
                simp
              · rw [if_neg hc1] at h
                simp at h
          · simp at h
        rw [if_neg hp] at h
        simp at h
    · intro b s r h
      simp only [manyToSig] at h
      split at h
      · simp at h
      · rename_i sigs r1 hmany
        rw [if_neg Bool.false_ne_true, if_neg Bool.false_ne_true] at h
        injection h with h1; injection h1 with hs hr; subst hs hr
        exact ⟨sigs, rfl, ih3 _ _ _ hmany⟩
    · intro b l r h
      simp only [manySigs] at h
      split at h
      · simp at h
      · rename_i s0 r0 hfirst
        split at h
        · rename_i hrest
          injection h with h1; injection h1 with hl hr; subst hl hr
          have e1 := ih1 _ _ _ hfirst
          simp [writeFields, ← e1]
        · rename_i ss r1 hrest
          injection h with h1; injection h1 with hl hr; subst hl hr
          have e1 := ih1 _ _ _ hfirst
          have e2 := ih3 _ _ _ hrest
          simp only [writeFields]
          rw [← e1, ← e2]
          simp

/-- `many1` never returns an empty list. -/
theorem manySigs_ne_nil (fuel : Nat) (co : Bool) (b : List Char) (l : List Signature)
    (r : List Char) (h : manySigs fuel co b = some (l, r)) : l ≠ [] := by
  cases fuel with
  | zero => simp [manySigs] at h
  | succ fuel =>
    simp only [manySigs] at h
    split at h
    · simp at h
    · rename_i s0 r0 hfirst
      split at h
      · injection h with h1; injection h1 with hl hr; subst hl; simp
      · rename_i ss r1 hrest
        injection h with h1; injection h1 with hl hr; subst hl; simp

/-- Stringification with and without parens only differs on `Structure`. -/
theorem toStrNoParens_of_not_structure (v : Signature)
    (hv : ∀ fs, v ≠ Signature.Structure fs) : toStrNoParens v = toStr v := by
  cases v with
  | Structure fs => exact absurd rfl (hv fs)
  | _ => rfl

/-- Decomposition of a successful top-level parse of a nonempty input:
the inner `many1` run succeeds, consumes everything, and the result is
determined by the number of parsed sigs exactly as the source's
`top_level` branch says. -/
theorem parse_decomp (c : Char) (S : List Char) (v : Signature)
    (h : fromBytes (c :: S) = some v) :
    ∃ sigs, manySigs (4 * (c :: S).length + 3) false (c :: S) = some (sigs, []) ∧
      ((∃ s0, sigs = [s0] ∧ v = s0) ∨
        (2 ≤ sigs.length ∧ v = Signature.Structure sigs)) := by
  simp only [fromBytes, parse] at h
  split at h
  · rename_i sig hmany
    injection h with hv
    subst hv
    rw [show 4 * (c :: S).length + 4 = (4 * (c :: S).length + 3) + 1 from rfl] at hmany
    simp only [manyToSig] at hmany
    split at hmany
    · simp at hmany
    · rename_i sigs r1 hsigs
      rw [if_neg Bool.false_ne_true, if_pos trivial] at hmany
      split at hmany
      · exact absurd (by rfl) (manySigs_ne_nil _ _ _ _ _ hsigs)
      · rename_i s0
        injection hmany with h1; injection h1 with hv hr; subst hv; subst hr
        exact ⟨[s0], hsigs, Or.inl ⟨s0, rfl, rfl⟩⟩
      · rename_i hne hone
        injection hmany with h1; injection h1 with hv hr; subst hv; subst hr
        refine ⟨sigs, hsigs, Or.inr ⟨?_, rfl⟩⟩
        match sigs, hne, hone with
        | a :: b2 :: t, _, _ => simp
        | [a], _, hone => exact absurd rfl (hone a)
        | [], hne, _ => exact absurd rfl hne
  · simp at h

/-- The `check_only` flag never changes which input is consumed (it only
suppresses allocation of the result): at every layer of the parser, the
remaining-input projection of the outcome is identical for the checking
and the allocating runs. -/
theorem checkOnly_rest_eq : ∀ fuel : Nat,
    (∀ b, (parseSig fuel true b).map Prod.snd = (parseSig fuel false b).map Prod.snd) ∧
    (∀ top b, (manyToSig fuel true top b).map Prod.snd =
      (manyToSig fuel false top b).map Prod.snd) ∧
    (∀ b, (manySigs fuel true b).map Prod.snd = (manySigs fuel false b).map Prod.snd) := by
  intro fuel
  induction fuel with
  | zero =>
    refine ⟨?_, ?_, ?_⟩ <;> intros <;> simp [parseSig, manyToSig, manySigs]
  | succ fuel ih =>
    obtain ⟨ih1, ih2, ih3⟩ := ih
    refine ⟨?_, ?_, ?_⟩
    · intro b
      cases b with
      | nil => simp [parseSig]
      | cons c r0 =>
        simp only [parseSig]
        by_cases hy : c = 'y'
        · simp [hy]
        rw [if_neg hy, if_neg hy]
        by_cases hbo : c = 'b'
        · simp [hbo]
        rw [if_neg hbo, if_neg hbo]
        by_cases hn : c = 'n'
        · simp [hn]
        rw [if_neg hn, if_neg hn]
        by_cases hq : c = 'q'
        · simp [hq]
        rw [if_neg hq, if_neg hq]
        by_cases hi : c = 'i'
        · simp [hi]
        rw [if_neg hi, if_neg hi]
        by_cases hu : c = 'u'
        · simp [hu]
        rw [if_neg hu, if_neg hu]
        by_cases hx : c = 'x'
        · simp [hx]
        rw [if_neg hx, if_neg hx]
        by_cases ht : c = 't'
        · simp [ht]
        rw [if_neg ht, if_neg ht]
        by_cases hd : c = 'd'
        · simp [hd]
        rw [if_neg hd, if_neg hd]
        by_cases hst : c = 's'
        · simp [hst]
        rw [if_neg hst, if_neg hst]
        by_cases hg : c = 'g'
        · simp [hg]
        rw [if_neg hg, if_neg hg]
        by_cases ho : c = 'o'
        · simp [ho]
        rw [if_neg ho, if_neg ho]
        by_cases hv : c = 'v'
        · simp [hv]
        rw [if_neg hv, if_neg hv]
        by_cases hh : c = 'h'
        · simp [hh]
        rw [if_neg hh, if_neg hh]
        by_cases ha : c = 'a'
        · rw [if_pos ha, if_pos ha]
          cases r0 with
          | nil => rfl
          | cons c1 r1 =>
            dsimp only
            by_cases hb1 : c1 = '{'
            · rw [if_pos hb1, if_pos hb1]
              have e1 := ih1 r1
              cases h1t : parseSig fuel true r1 with
              | none =>
                cases h1f : parseSig fuel false r1 with
                | none => simp
                | some p1f => rw [h1t, h1f] at e1; simp at e1
              | some p1t =>
                obtain ⟨key1, r2t⟩ := p1t
                cases h1f : parseSig fuel false r1 with
                | none => rw [h1t, h1f] at e1; simp at e1
                | some p1f =>
                  obtain ⟨key2, r2f⟩ := p1f
                  rw [h1t, h1f] at e1
                  simp only [Option.map_some'] at e1
                  injection e1 with e1
                  subst e1
                  dsimp only
                  have e2 := ih1 r2t
                  cases h2t : parseSig fuel true r2t with
                  | none =>
                    cases h2f : parseSig fuel false r2t with
                    | none => simp
                    | some p2f => rw [h2t, h2f] at e2; simp at e2
                  | some p2t =>
                    obtain ⟨v1, r3t⟩ := p2t
                    cases h2f : parseSig fuel false r2t with
                    | none => rw [h2t, h2f] at e2; simp at e2
                    | some p2f =>
                      obtain ⟨v2, r3f⟩ := p2f
                      rw [h2t, h2f] at e2
                      simp only [Option.map_some'] at e2
                      injection e2 with e2
                      subst e2
                      dsimp only
                      cases r3t with
                      | nil => rfl
                      | cons c3 r4 =>
                        dsimp only
                        by_cases hc3 : c3 = '}'
                        · simp [hc3]
                        · rw [if_neg hc3, if_neg hc3]
            · rw [if_neg hb1, if_neg hb1]
              have e1 := ih1 (c1 :: r1)
              cases h1t : parseSig fuel true (c1 :: r1) with
              | none =>
                cases h1f : parseSig fuel false (c1 :: r1) with
                | none => simp
                | some p1f => rw [h1t, h1f] at e1; simp at e1
              | some p1t =>
                obtain ⟨ch1, r2t⟩ := p1t
                cases h1f : parseSig fuel false (c1 :: r1) with
                | none => rw [h1t, h1f] at e1; simp at e1
                | some p1f =>
                  obtain ⟨ch2, r2f⟩ := p1f
                  rw [h1t, h1f] at e1
                  simp only [Option.map_some'] at e1
                  injection e1 with e1
                  subst e1
                  simp
        rw [if_neg ha, if_neg ha]
        by_cases hp : c = '('
        · rw [if_pos hp, if_pos hp]
          have e1 := ih2 false r0
          cases h1t : manyToSig fuel true false r0 with
          | none =>
            cases h1f : manyToSig fuel false false r0 with
            | none => simp
            | some p1f => rw [h1t, h1f] at e1; simp at e1
          | some p1t =>
            obtain ⟨sig1, r1t⟩ := p1t
            cases h1f : manyToSig fuel false false r0 with
            | none => rw [h1t, h1f] at e1; simp at e1
            | some p1f =>
              obtain ⟨sig2, r1f⟩ := p1f
              rw [h1t, h1f] at e1
              simp only [Option.map_some'] at e1
              injection e1 with e1
              subst e1
              dsimp only
              cases r1t with
              | nil => rfl
              | cons c1 r2 =>
                dsimp only
                by_cases hc1 : c1 = ')'
                · simp [hc1]
                · rw [if_neg hc1, if_neg hc1]
        rw [if_neg hp, if_neg hp]
    · intro top b
      simp only [manyToSig]
      have e1 := ih3 b
      cases h1t : manySigs fuel true b with
      | none =>
        cases h1f : manySigs fuel false b with
        | none => simp
        | some p1f => rw [h1t, h1f] at e1; simp at e1
      | some p1t =>
        obtain ⟨sigs1, r1t⟩ := p1t
        cases h1f : manySigs fuel false b with
        | none => rw [h1t, h1f] at e1; simp at e1
        | some p1f =>
          obtain ⟨sigs2, r1f⟩ := p1f
          rw [h1t, h1f] at e1
          simp only [Option.map_some'] at e1
          injection e1 with e1
          subst e1
          dsimp only
          rw [if_pos trivial, if_neg Bool.false_ne_true]
          by_cases htop : top = true
          · rw [if_pos htop]
            cases sigs2 with
            | nil => simp
            | cons s2 t2 =>
              cases t2 with
              | nil => simp
              | cons s3 t3 => simp
          · rw [if_neg htop]
            simp
    · intro b
      simp only [manySigs]
      have e1 := ih1 b
      cases h1t : parseSig fuel true b with
      | none =>
        cases h1f : parseSig fuel false b with
        | none => simp
        | some p1f => rw [h1t, h1f] at e1; simp at e1
      | some p1t =>
        obtain ⟨s1, r1t⟩ := p1t
        cases h1f : parseSig fuel false b with
        | none => rw [h1t, h1f] at e1; simp at e1
        | some p1f =>
          obtain ⟨s2, r1f⟩ := p1f
          rw [h1t, h1f] at e1
          simp only [Option.map_some'] at e1
          injection e1 with e1
          subst e1
          dsimp only
          have e2 := ih3 r1t
          cases h2t : manySigs fuel true r1t with
          | none =>
            cases h2f : manySigs fuel false r1t with
            | none => simp
            | some p2f => rw [h2t, h2f] at e2; simp at e2
          | some p2t =>
            obtain ⟨ss1, r2t⟩ := p2t
            cases h2f : manySigs fuel false r1t with
            | none => rw [h2t, h2f] at e2; simp at e2
            | some p2f =>
              obtain ⟨ss2, r2f⟩ := p2f
              rw [h2t, h2f] at e2
              simp only [Option.map_some'] at e2
              injection e2 with e2
              subst e2
              simp

/-- `Display` form of a `Structure`: parens present. -/
theorem toStr_structure (fs : List Signature) :
    toStr (Signature.Structure fs) = '(' :: (writeFields fs ++ [')']) := by
  simp [toStr, writeAsString]

/-- No-parens form of a `Structure`: just the fields. -/
theorem toStrNoParens_structure (fs : List Signature) :
    toStrNoParens (Signature.Structure fs) = writeFields fs := by
  simp [toStrNoParens, writeAsString]

/- ------------------------------------------------------------------ -/
/- Helper lemmas: string length versus written string.                -/
/- ------------------------------------------------------------------ -/

mutual

/-- `string_len` computes the length of the `Display` form. -/
theorem strLen_toStr : ∀ v : Signature, stringLen v = (writeAsString v true).length
  | .Unit => rfl
  | .U8 => rfl
  | .Bool => rfl
  | .I16 => rfl
  | .U16 => rfl
  | .I32 => rfl
  | .U32 => rfl
  | .I64 => rfl
  | .U64 => rfl
  | .F64 => rfl
  | .Str => rfl
  | .Signature => rfl
  | .ObjectPath => rfl
  | .Variant => rfl
  | .Fd => rfl
  | .Array c => by
    simp [stringLen, writeAsString, strLen_toStr c, Nat.add_comm]
  | .Dict k v => by
    simp [stringLen, writeAsString, strLen_toStr k, strLen_toStr v]
    omega
  | .Structure fs => by
    simp [stringLen, writeAsString, fieldsLenSum_writeFields fs]
    omega

/-- Field-list version of `strLen_toStr`. -/
theorem fieldsLenSum_writeFields : ∀ fs : List Signature,
    fieldsLenSum fs = (writeFields fs).length
  | [] => rfl
  | f :: fs => by
    simp [fieldsLenSum, writeFields, strLen_toStr f, fieldsLenSum_writeFields fs]

end

/- ------------------------------------------------------------------ -/
/- Claim theorems.                                                    -/
/- ------------------------------------------------------------------ -/

/-- C2: for every valid signature string `S` parsed at top level,
`to_string` returns `S` itself when `S` is empty or consists of exactly
one sig (even when that sig is itself a parenthesized structure), and
`"(" ++ S ++ ")"` when `S` consists of two or more sigs (parsed to a
`Structure`). -/
theorem c2_to_string_round_trip (S : List Char) (v : Signature)
    (h : fromBytes S = some v) :
    toStr v = if 2 ≤ topFieldCount S then '(' :: (S ++ [')']) else S := by
  cases S with
  | nil =>
    simp only [fromBytes, parse] at h
    injection h with hv
    subst hv
    rw [show topFieldCount ([] : List Char) = 0 from rfl]
    norm_num
    rfl
  | cons c S1 =>
    obtain ⟨sigs, hsigs, hcase⟩ := parse_decomp c S1 v h
    have hrt := (roundTripAux (4 * (c :: S1).length + 3)).2.2 _ _ _ hsigs
    rw [List.append_nil] at hrt
    have hcount : topFieldCount (c :: S1) = sigs.length := by
      unfold topFieldCount
      rw [hsigs]
    rw [hcount]
    rcases hcase with ⟨s0, hs0, hv⟩ | ⟨h2, hv⟩
    · subst hs0 hv
      rw [if_neg (by simp)]
      simpa [writeFields] using hrt
    · subst hv
      rw [if_pos h2, toStr_structure, hrt]

/-- C2 witness: `"ii"` parses to `Structure [I32, I32]` and stringifies
with the added outer parens. -/
theorem c2_to_string_round_trip_witness :
    toStr (Signature.Structure [Signature.I32, Signature.I32]) =
      (if 2 ≤ topFieldCount ['i', 'i'] then '(' :: ((['i', 'i'] : List Char) ++ [')'])
        else ['i', 'i']) :=
  c2_to_string_round_trip ['i', 'i'] (Signature.Structure [Signature.I32, Signature.I32]) rfl

/-- C3 counterexample: `"(i)"` is a valid top-level signature string, it
parses to `Structure [I32]`, but `to_string_no_parens` returns `"i"`,
not `"(i)"` — the claimed identity fails on any single parenthesized
structure sig. -/
theorem c3_no_parens_counterexample :
    fromBytes ['(', 'i', ')'] = some (Signature.Structure [Signature.I32]) ∧
      toStrNoParens (Signature.Structure [Signature.I32]) = ['i'] ∧
      (['i'] : List Char) ≠ ['(', 'i', ')'] :=
  ⟨rfl, rfl, by decide⟩

/-- C3 amended: `parse(S).to_string_no_parens() == S` for every valid
top-level `S` that is **not** itself a single explicitly parenthesized
structure sig (for such an `S = "(...)"` the outer parens are stripped);
nested structures always retain theirs. -/
theorem c3_no_parens_round_trip (S : List Char) (v : Signature)
    (h : fromBytes S = some v)
    (hns : ∀ fields, v = Signature.Structure fields → 2 ≤ topFieldCount S) :
    toStrNoParens v = S := by
  cases S with
  | nil =>
    simp only [fromBytes, parse] at h
    injection h with hv
    subst hv
    rfl
  | cons c S1 =>
    obtain ⟨sigs, hsigs, hcase⟩ := parse_decomp c S1 v h
    have hrt := (roundTripAux (4 * (c :: S1).length + 3)).2.2 _ _ _ hsigs
    rw [List.append_nil] at hrt
    have hcount : topFieldCount (c :: S1) = sigs.length := by
      unfold topFieldCount
      rw [hsigs]
    rcases hcase with ⟨s0, hs0, hv⟩ | ⟨h2, hv⟩
    · subst hs0 hv
      by_cases hst : ∃ fs, v = Signature.Structure fs
      · obtain ⟨fs, rfl⟩ := hst
        have h21 := hns fs rfl
        rw [hcount] at h21
        simp at h21
      · push_neg at hst
        rw [toStrNoParens_of_not_structure _ hst]
        simpa [writeFields] using hrt
    · subst hv
      rw [toStrNoParens_structure, hrt]

/-- C3 amended witness: the multi-field string `"ii"` round-trips
through `to_string_no_parens`. -/
theorem c3_no_parens_round_trip_witness :
    toStrNoParens (Signature.Structure [Signature.I32, Signature.I32]) = ['i', 'i'] :=
  c3_no_parens_round_trip ['i', 'i'] (Signature.Structure [Signature.I32, Signature.I32]) rfl
    (fun _ _ => by decide)

/-- C6: the check-only `validate` accepts exactly the inputs the
allocating parse accepts. -/
theorem c6_validate_iff_parse (b : List Char) :
    (validate b).isSome = (fromBytes b).isSome := by
  simp only [validate, fromBytes, Option.isSome_map']
  cases b with
  | nil => rfl
  | cons c r0 =>
    simp only [parse]
    have e := (checkOnly_rest_eq (4 * (c :: r0).length + 4)).2.1 true (c :: r0)
    cases h1t : manyToSig (4 * (c :: r0).length + 4) true true (c :: r0) with
    | none =>
      cases h1f : manyToSig (4 * (c :: r0).length + 4) false true (c :: r0) with
      | none => rfl
      | some p1f => rw [h1t, h1f] at e; simp at e
    | some p1t =>
      obtain ⟨sig1, r1t⟩ := p1t
      cases h1f : manyToSig (4 * (c :: r0).length + 4) false true (c :: r0) with
      | none => rw [h1t, h1f] at e; simp at e
      | some p1f =>
        obtain ⟨sig2, r1f⟩ := p1f
        rw [h1t, h1f] at e
        simp only [Option.map_some'] at e
        injection e with e
        subst e
        cases r1t with
        | nil => rfl
        | cons x xs => rfl

mutual

/-- `cmp` is reflexive: every value compares `Equal` to itself. -/
theorem sigCmp_self : ∀ v : Signature, sigCmp v v = .eq
  | .Unit => rfl
  | .U8 => rfl
  | .Bool => rfl
  | .I16 => rfl
  | .U16 => rfl
  | .I32 => rfl
  | .U32 => rfl
  | .I64 => rfl
  | .U64 => rfl
  | .F64 => rfl
  | .Str => rfl
  | .Signature => rfl
  | .ObjectPath => rfl
  | .Variant => rfl
  | .Fd => rfl
  | .Array c => sigCmp_self c
  | .Dict k v => by
    show (match sigCmp k k with | .eq => sigCmp v v | o => o) = .eq
    rw [sigCmp_self k]
    exact sigCmp_self v
  | .Structure fs => fieldsCmp_self fs

/-- Field-list version of `sigCmp_self`. -/
theorem fieldsCmp_self : ∀ fs : List Signature, fieldsCmp fs fs = .eq
  | [] => rfl
  | f :: fs => by
    show (match sigCmp f f with | .eq => fieldsCmp fs fs | o => o) = .eq
    rw [sigCmp_self f]
    exact fieldsCmp_self fs

end

/-- C4 counterexample: `cmp` returns `Equal` on the distinct
discriminants `U8` and `Bool` (the final `(_, _)` fall-through), so
`cmp(a, b) == Equal` does **not** imply `a == b`: the order is not
consistent with structural equality and not antisymmetric. -/
theorem c4_cmp_counterexample :
    sigCmp .U8 .Bool = .eq ∧ sigCmp .Bool .U8 = .eq ∧
      sigEq .U8 .Bool = false ∧ Signature.U8 ≠ Signature.Bool :=
  ⟨rfl, rfl, rfl, fun h => Signature.noConfusion h⟩

/-- C4 amended: equal values always compare `Equal` (so `cmp` is
reflexive and deterministic on equal operands), but the converse fails —
distinct discriminants fall through to `Equal`, so `cmp` is not a total
order consistent with structural equality. -/
theorem c4_cmp_eq_of_eq (a b : Signature) (h : a = b) : sigCmp a b = .eq :=
  h ▸ sigCmp_self a

/-- C4 amended witness. -/
theorem c4_cmp_eq_of_eq_witness :
    sigCmp (.Dict .Str (.Array .U8)) (.Dict .Str (.Array .U8)) = .eq :=
  c4_cmp_eq_of_eq (.Dict .Str (.Array .U8)) (.Dict .Str (.Array .U8)) rfl

/-- C5: in the DBus format, `alignment` returns exactly the table
values on every constructor. -/
theorem c5_alignment_table :
    alignment .U8 .DBus = 1 ∧ alignment .Variant .DBus = 1 ∧
      alignment .Signature .DBus = 1 ∧
      alignment .I16 .DBus = 2 ∧ alignment .U16 .DBus = 2 ∧
      alignment .I32 .DBus = 4 ∧ alignment .U32 .DBus = 4 ∧
      alignment .Bool .DBus = 4 ∧ alignment .Str .DBus = 4 ∧
      alignment .ObjectPath .DBus = 4 ∧ alignment .Fd .DBus = 4 ∧
      (∀ c, alignment (.Array c) .DBus = 4) ∧
      (∀ k v, alignment (.Dict k v) .DBus = 4) ∧
      alignment .I64 .DBus = 8 ∧ alignment .U64 .DBus = 8 ∧
      alignment .F64 .DBus = 8 ∧ alignment .Unit .DBus = 8 ∧
      (∀ fs, alignment (.Structure fs) .DBus = 8) :=
  ⟨rfl, rfl, rfl, rfl, rfl, rfl, rfl, rfl, rfl, rfl, rfl,
    fun _ => rfl, fun _ _ => rfl, rfl, rfl, rfl, rfl, fun _ => rfl⟩

/-- C9: `string_len` equals the byte length of the `Display` form for
every `Signature` value, outer structure parens included. -/
theorem c9_string_len_is_to_string_length (v : Signature) :
    stringLen v = (toStr v).length :=
  strLen_toStr v

/- ------------------------------------------------------------------ -/
/- C10: wire-string comparison against the canonical forms.           -/
/- ------------------------------------------------------------------ -/

/-- Well-formed signatures occupy at least one byte. -/
theorem one_le_stringLen_of_wf (v : Signature) (h : wfSig v = true) :
    1 ≤ stringLen v := by
  cases v <;> simp_all [wfSig, stringLen] <;> omega

/-- Well-formed canonical strings are nonempty. -/
theorem one_le_toStr_length_of_wf (v : Signature) (h : wfSig v = true) :
    1 ≤ (writeAsString v true).length := by
  rw [← strLen_toStr]
  exact one_le_stringLen_of_wf v h

mutual

/-- Main C10 lemma: on a well-formed signature, `PartialEq<&str>`
against the `Display` form (outer parens included) returns `true`
without panicking. -/
theorem eqStr_toStr_of_wf : ∀ v : Signature, wfSig v = true →
    eqStr v (writeAsString v true) = some true
  | .Unit => by intro h; simp [wfSig] at h
  | .U8 => fun _ => rfl
  | .Bool => fun _ => rfl
  | .I16 => fun _ => rfl
  | .U16 => fun _ => rfl
  | .I32 => fun _ => rfl
  | .U32 => fun _ => rfl
  | .I64 => fun _ => rfl
  | .U64 => fun _ => rfl
  | .F64 => fun _ => rfl
  | .Str => fun _ => rfl
  | .Signature => fun _ => rfl
  | .ObjectPath => fun _ => rfl
  | .Variant => fun _ => rfl
  | .Fd => fun _ => rfl
  | .Array c => by
    intro h
    have hc : wfSig c = true := by simpa [wfSig] using h
    have hlen := one_le_toStr_length_of_wf c hc
    have hcond : ((('a' :: writeAsString c true).length < 2 : Bool) ||
        !(('a' :: writeAsString c true).take 1 == ['a'])) = false := by
      simp only [List.length_cons, List.take_succ_cons, List.take_zero,
        beq_self_eq_true, Bool.not_true, Bool.or_false]
      exact decide_eq_false (by omega)
    simp only [writeAsString, eqStr, hcond, Bool.false_eq_true, if_false]
    simpa using eqStr_toStr_of_wf c hc
  | .Dict k v => by
    intro h
    have hk : wfSig k = true := by
      have := h; simp [wfSig] at this; exact this.1.1
    have hk1 : stringLen k = 1 := by
      have := h; simp [wfSig] at this; exact this.1.2
    have hv : wfSig v = true := by
      have := h; simp [wfSig] at this; exact this.2
    have hklen : (writeAsString k true).length = 1 := by
      rw [← strLen_toStr]; exact hk1
    have hvlen := one_le_toStr_length_of_wf v hv
    have hshape : writeAsString (.Dict k v) true =
        ('a' :: '{' :: (writeAsString k true ++ writeAsString v true)) ++ ['}'] := by
      simp [writeAsString]
    rw [hshape]
    have hcond : (((('a' :: '{' :: (writeAsString k true ++ writeAsString v true)) ++
          ['}']).length < 4 : Bool) ||
        !((('a' :: '{' :: (writeAsString k true ++ writeAsString v true)) ++
          ['}']).take 2 == ['a', '{']) ||
        !((('a' :: '{' :: (writeAsString k true ++ writeAsString v true)) ++
          ['}']).getLast? == some '}')) = false := by
      rw [List.getLast?_concat]
      simp only [List.cons_append, List.length_cons, List.length_append,
        List.take_succ_cons, List.take_zero, beq_self_eq_true, Bool.not_true,
        Bool.or_false]
      exact decide_eq_false (by omega)
    simp only [eqStr, hcond, Bool.false_eq_true, if_false]
    have hinner : ((('a' :: '{' :: (writeAsString k true ++ writeAsString v true)) ++
        ['}']).drop 2).dropLast = writeAsString k true ++ writeAsString v true := by
      simp only [List.cons_append, List.drop_succ_cons, List.drop_zero]
      exact List.dropLast_concat
    rw [hinner]
    have htake : (writeAsString k true ++ writeAsString v true).take 1 =
        writeAsString k true := by
      rw [← hklen]
      exact List.take_left _ _
    have hdrop : (writeAsString k true ++ writeAsString v true).drop 1 =
        writeAsString v true := by
      rw [← hklen]
      exact List.drop_left _ _
    rw [htake, hdrop, eqStr_toStr_of_wf k hk]
    exact eqStr_toStr_of_wf v hv
  | .Structure fs => by
    intro h
    have hne : fs ≠ [] := by
      have := h; simp [wfSig] at this; exact this.1
    have hwf : wfFields fs = true := by
      have := h; simp [wfSig] at this; exact this.2
    have hsl : stringLen (.Structure fs) = (writeAsString (.Structure fs) true).length :=
      strLen_toStr _
    have h3 : 3 ≤ stringLen (.Structure fs) := by
      cases fs with
      | nil => exact absurd rfl hne
      | cons f fs1 =>
        have hf : wfSig f = true := by
          have := hwf; simp [wfFields] at this; exact this.1
        have := one_le_stringLen_of_wf f hf
        simp only [stringLen, fieldsLenSum]
        omega
    have hshape : writeAsString (.Structure fs) true =
        ('(' :: writeFields fs) ++ [')'] := by
      simp [writeAsString]
    simp only [eqStr]
    rw [if_neg (by omega : ¬(stringLen (.Structure fs) <
      (writeAsString (.Structure fs) true).length))]
    rw [hsl, beq_self_eq_true, if_pos rfl]
    rw [if_neg (by rw [← hsl]; omega : ¬((writeAsString (.Structure fs) true).length < 3))]
    have hinner : ((writeAsString (.Structure fs) true).drop 1).dropLast =
        writeFields fs := by
      rw [hshape]
      simp only [List.cons_append, List.drop_succ_cons, List.drop_zero]
      exact List.dropLast_concat
    rw [hinner]
    exact structFieldsEqStr_of_wf fs hwf

/-- Field-loop version of the main C10 lemma: comparing well-formed
fields against their concatenated canonical strings succeeds. -/
theorem structFieldsEqStr_of_wf : ∀ fs : List Signature, wfFields fs = true →
    structFieldsEqStr fs (writeFields fs) = some true
  | [] => fun _ => rfl
  | f :: fs => by
    intro h
    have hf : wfSig f = true := by
      have := h; simp [wfFields] at this; exact this.1
    have hfs : wfFields fs = true := by
      have := h; simp [wfFields] at this; exact this.2
    have hflen : stringLen f = (writeAsString f true).length := strLen_toStr f
    simp only [structFieldsEqStr, writeFields]
    rw [if_neg (by simp [List.length_append]; omega :
      ¬((writeAsString f true ++ writeFields fs).length < stringLen f))]
    have htake : (writeAsString f true ++ writeFields fs).take (stringLen f) =
        writeAsString f true := by
      rw [hflen]
      exact List.take_left _ _
    have hdrop : (writeAsString f true ++ writeFields fs).drop (stringLen f) =
        writeFields fs := by
      rw [hflen]
      exact List.drop_left _ _
    rw [htake, hdrop, eqStr_toStr_of_wf f hf]
    exact structFieldsEqStr_of_wf fs hfs

end

/-- No-parens variant of the main C10 lemma: a well-formed nonempty
`Structure` also equals its `to_string_no_parens` form. -/
theorem eqStr_toStrNoParens_of_wf (fs : List Signature) (hne : fs ≠ [])
    (hwf : wfFields fs = true) :
    eqStr (.Structure fs) (writeAsString (.Structure fs) false) = some true := by
  have hshape : writeAsString (.Structure fs) false = writeFields fs := by
    simp [writeAsString]
  rw [hshape]
  have hlen1 : 1 ≤ (writeFields fs).length := by
    cases fs with
    | nil => exact absurd rfl hne
    | cons f fs1 =>
      have hf : wfSig f = true := by
        have := hwf; simp [wfFields] at this; exact this.1
      have := one_le_toStr_length_of_wf f hf
      simp [writeFields]
      omega
  have hsl : stringLen (.Structure fs) = 2 + (writeFields fs).length := by
    simp only [stringLen]
    rw [fieldsLenSum_writeFields]
  simp only [eqStr]
  rw [if_neg (by omega : ¬(stringLen (.Structure fs) < (writeFields fs).length))]
  have hbeq : (stringLen (.Structure fs) == (writeFields fs).length) = false := by
    exact beq_eq_false_iff_ne.mpr (by omega)
  rw [hbeq, if_neg Bool.false_ne_true]
  have hemp : (writeFields fs).isEmpty = false := by
    cases hW : writeFields fs with
    | nil => rw [hW] at hlen1; simp at hlen1
    | cons a t => rfl
  rw [hemp, if_neg Bool.false_ne_true]
  exact structFieldsEqStr_of_wf fs hwf

/-- C10 counterexample: `Structure [Unit]` has one field, yet the
wire-string comparison rejects both its `Display` form `"()"` and its
no-parens form `""` (the `len >= 3` / nonempty guards fail because the
`Unit` field contributes zero bytes), so the claim fails as stated. -/
theorem c10_counterexample :
    ([Signature.Unit] : List Signature) ≠ [] ∧
      eqStr (.Structure [.Unit]) (toStr (.Structure [.Unit])) = some false ∧
      eqStr (.Structure [.Unit]) (toStrNoParens (.Structure [.Unit])) = some false :=
  ⟨fun h => List.noConfusion h, by decide, by decide⟩

/-- C10 amended: for every `Structure` value with at least one field all
of whose components are well-formed D-Bus types (no `Unit` anywhere,
dict keys one-byte basic, nested structures nonempty), string equality
accepts both the parenthesized `to_string` form and the bare
`to_string_no_parens` form. -/
theorem c10_structure_eq_both_forms (fs : List Signature) (hne : fs ≠ [])
    (hwf : wfFields fs = true) :
    eqStr (.Structure fs) (toStr (.Structure fs)) = some true ∧
      eqStr (.Structure fs) (toStrNoParens (.Structure fs)) = some true := by
  constructor
  · have hwfs : wfSig (.Structure fs) = true := by
      simp only [wfSig, Bool.and_eq_true, Bool.not_eq_true']
      exact ⟨by simpa using hne, hwf⟩
    exact eqStr_toStr_of_wf _ hwfs
  · exact eqStr_toStrNoParens_of_wf fs hne hwf

/-- C10 amended witness: `Structure [Str, Dict Str Variant]` equals both
`"(sa{sv})"` and `"sa{sv}"`. -/
theorem c10_structure_eq_both_forms_witness :
    eqStr (.Structure [.Str, .Dict .Str .Variant])
        (toStr (.Structure [.Str, .Dict .Str .Variant])) = some true ∧
      eqStr (.Structure [.Str, .Dict .Str .Variant])
        (toStrNoParens (.Structure [.Str, .Dict .Str .Variant])) = some true :=
  c10_structure_eq_both_forms [.Str, .Dict .Str .Variant]
    (fun h => List.noConfusion h) (by decide)

/- ------------------------------------------------------------------ -/
/- C7: the SASL EXTERNAL hex token.                                   -/
/- ------------------------------------------------------------------ -/

/-- Every character produced by decimal conversion is a digit char. -/
theorem toDigitsCore_mem (fuel : Nat) : ∀ (n : Nat) (ds : List Char) (c : Char),
    c ∈ Nat.toDigitsCore 10 fuel n ds →
    (∃ d, d < 10 ∧ c = Nat.digitChar d) ∨ c ∈ ds := by
  induction fuel with
  | zero =>
    intro n ds c h
    simp only [Nat.toDigitsCore] at h
    exact Or.inr h
  | succ fuel ih =>
    intro n ds c h
    simp only [Nat.toDigitsCore] at h
    split at h
    · rcases List.mem_cons.mp h with hc | hc
      · exact Or.inl ⟨n % 10, Nat.mod_lt _ (by norm_num), hc⟩
      · exact Or.inr hc
    · rcases ih _ _ _ h with hl | hc
      · exact Or.inl hl
      · rcases List.mem_cons.mp hc with hc1 | hc2
        · exact Or.inl ⟨n % 10, Nat.mod_lt _ (by norm_num), hc1⟩
        · exact Or.inr hc2

/-- Every character of a decimal string is a digit char. -/
theorem decString_mem (n : Nat) (c : Char) (h : c ∈ decString n) :
    ∃ d, d < 10 ∧ c = Nat.digitChar d := by
  simp only [decString, Nat.toDigits] at h
  rcases toDigitsCore_mem _ _ _ _ h with hl | hc
  · exact hl
  · simp at hc

/-- On a decimal digit character's code point (48–57), the unpadded
`{:x}` conversion coincides with the spec's two-digit hex form. -/
theorem hexFmt_digitChar (d : Nat) (hd : d < 10) :
    hexFmt (Nat.digitChar d).toNat = specTwoDigitHex (Nat.digitChar d).toNat := by
  interval_cases d <;> decide

/-- C7: the AUTH line hex token is the concatenation, character by
character over the decimal UID string, of the two-digit hex of each
character's code point; in particular UID 1000 gives `"31303030"` and
the line written is `"\0AUTH EXTERNAL 31303030\r\n"`. -/
theorem c7_auth_external_hex :
    (∀ uid : Nat, uidHex uid =
      ((decString uid).map fun c => specTwoDigitHex c.toNat).flatten) ∧
      uidHex 1000 = ['3', '1', '3', '0', '3', '0', '3', '0'] ∧
      authLine 1000 = [Char.ofNat 0, 'A', 'U', 'T', 'H', ' ', 'E', 'X', 'T', 'E',
        'R', 'N', 'A', 'L', ' ', '3', '1', '3', '0', '3', '0', '3', '0', '\r', '\n'] := by
  refine ⟨?_, by decide, by decide⟩
  intro uid
  unfold uidHex
  suffices hmap : (decString uid).map (fun c => hexFmt c.toNat) =
      (decString uid).map (fun c => specTwoDigitHex c.toNat) by
    rw [hmap]
  apply List.map_congr_left
  intro c hc
  obtain ⟨d, hd, rfl⟩ := decString_mem uid c hc
  exact hexFmt_digitChar d hd

/- ------------------------------------------------------------------ -/
/- C8: the serial counter.                                            -/
/- ------------------------------------------------------------------ -/

/-- Serials drawn from counter state `s` are `s+1, s+2, …`. -/
theorem sendSerials_eq (n : Nat) : ∀ (s : Nat) (l : List Nat),
    sendSerials n s = some l → l = List.range' (s + 1) n := by
  induction n with
  | zero =>
    intro s l h
    injection h with h
    subst h
    rfl
  | succ n ih =>
    intro s l h
    simp only [sendSerials] at h
    split at h
    · simp at h
    · rename_i serial s1 heq
      simp only [nextSerial] at heq
      split at heq
      · injection heq with heq1
        injection heq1 with hser hs1
        subst hser
        subst hs1
        simp only [Option.map_eq_some'] at h
        obtain ⟨rest, hrest, hl⟩ := h
        subst hl
        rw [ih (s + 1) rest hrest]
        rfl
      · simp at heq

/-- C8: starting from the fresh-connection state, the `n`-th
`call_method` invocation sends serial `n`: the serial list of the first
`n` sends is `[1, …, n]`, every outgoing serial is nonzero, and serials
strictly increase across sends. -/
theorem c8_serials (n : Nat) (l : List Nat) (h : sendSerials n initialSerial = some l) :
    l = List.range' 1 n ∧ (∀ x ∈ l, 0 < x) ∧ l.Pairwise (· < ·) := by
  have hl : l = List.range' 1 n := sendSerials_eq n initialSerial l h
  subst hl
  refine ⟨rfl, ?_, ?_⟩
  · intro x hx
    rw [List.mem_range'_1] at hx
    omega
  · exact List.pairwise_lt_range' 1 n

/-- C8 witness: three sends yield serials `[1, 2, 3]`. -/
theorem c8_serials_witness :
    ([1, 2, 3] : List Nat) = List.range' 1 3 ∧
      (∀ x ∈ ([1, 2, 3] : List Nat), 0 < x) ∧
      ([1, 2, 3] : List Nat).Pairwise (· < ·) :=
  c8_serials 3 [1, 2, 3] rfl

/- ------------------------------------------------------------------ -/
/- C1: reply dispatch in the read loop.                               -/
/- ------------------------------------------------------------------ -/

/-- C1: the read loop skips every frame that is not a `MethodReturn` or
`Error` with matching `ReplySerial`; at the first matching frame it
returns the frame if it is a `MethodReturn`, and surfaces an `Error`
frame whose `ErrorName` field holds the string `name` as
`MethodError(name, detail)` with `detail = Some(body)` exactly when the
body signature is `"s"`. -/
theorem c1_reply_dispatch (serial : Nat) (frames : List Message) (m : Message)
    (hfind : frames.find? (matchesReply serial) = some m) :
    (m.msgType = .MethodReturn → callMethodLoop serial frames = some (.ok m)) ∧
      (∀ name, m.msgType = .Error →
        (m.fields.find? fun f => decide (f.code = .ErrorName)).map MessageField.value =
          some (.str name) →
        callMethodLoop serial frames = some (.error (.MethodError name
          (if m.bodySig = some ['s'] then some m.bodyStr else none)))) := by
  revert hfind
  induction frames with
  | nil => intro hfind; simp at hfind
  | cons m0 rest ih =>
    intro hfind
    by_cases hm : matchesReply serial m0 = true
    · rw [List.find?_cons_of_pos _ hm] at hfind
      injection hfind with hm0
      subst hm0
      have hhas : hasMatchingReplySerial serial m0 = true := by
        simp only [matchesReply, Bool.and_eq_true] at hm
        exact hm.2
      constructor
      · intro hmt
        simp only [callMethodLoop]
        rw [if_pos (Or.inl hmt), if_pos hhas, hmt]
      · intro name hmt hname
        simp only [callMethodLoop]
        rw [if_pos (Or.inr hmt), if_pos hhas, hmt]
        simp only [connectionErrorOfMessage]
        rw [if_neg (by simp [hmt])]
        cases hf : m0.fields.find? (fun f => decide (f.code = .ErrorName)) with
        | none => rw [hf] at hname; simp at hname
        | some f =>
          rw [hf] at hname
          simp only [Option.map_some'] at hname
          injection hname with hname
          dsimp only
          rw [hname]
          dsimp only [getStr]
          cases hbs : m0.bodySig with
          | none => simp [hbs]
          | some bs =>
            by_cases hbss : bs = ['s']
            · simp [hbs, hbss]
            · simp [hbs, hbss]
    · rw [List.find?_cons_of_neg _ hm] at hfind
      have ihm := ih hfind
      have hskip : callMethodLoop serial (m0 :: rest) = callMethodLoop serial rest := by
        simp only [callMethodLoop]
        by_cases h1 : m0.msgType = .MethodReturn ∨ m0.msgType = .Error
        · rw [if_pos h1]
          cases hhas : hasMatchingReplySerial serial m0 with
          | false => rw [if_neg (by simp [hhas])]
          | true =>
            exfalso
            apply hm
            simp only [matchesReply, hhas, Bool.and_true, Bool.or_eq_true,
              decide_eq_true_eq]
            exact h1
        · rw [if_neg h1]
      constructor
      · intro hmt
        rw [hskip]
        exact ihm.1 hmt
      · intro name hmt hname
        rw [hskip]
        exact ihm.2 name hmt hname

/-- C1 witness: with serial 7, a signal frame is skipped and the
following `Error` frame with `ReplySerial = 7`, `ErrorName` `"UM"` and
body signature `"s"` surfaces as `MethodError("UM", Some(body))`. -/
theorem c1_reply_dispatch_witness :
    callMethodLoop 7
        [{ msgType := .Signal, fields := [], bodySig := none, bodyStr := [] },
          { msgType := .Error,
            fields := [⟨.ReplySerial, .u32 7⟩, ⟨.ErrorName, .str ['U', 'M']⟩],
            bodySig := some ['s'], bodyStr := ['n', 'o'] }] =
      some (.error (.MethodError ['U', 'M'] (some ['n', 'o']))) := by
  have h := (c1_reply_dispatch 7
    [{ msgType := .Signal, fields := [], bodySig := none, bodyStr := [] },
      { msgType := .Error,
        fields := [⟨.ReplySerial, .u32 7⟩, ⟨.ErrorName, .str ['U', 'M']⟩],
        bodySig := some ['s'], bodyStr := ['n', 'o'] }]
    { msgType := .Error,
      fields := [⟨.ReplySerial, .u32 7⟩, ⟨.ErrorName, .str ['U', 'M']⟩],
      bodySig := some ['s'], bodyStr := ['n', 'o'] } rfl).2 ['U', 'M'] rfl rfl
  simpa using h
